import Mathlib

/-!
Shallow embedding of the `go-equalizer` package (`pkg/equalizer/equalizer.go`):
biquad audio EQ filters following the RBJ audio EQ cookbook.

float64 values are modelled by `FP := Option ℝ`: `some r` is a finite value
with real value `r`, and `none` is the non-finite value (the IEEE NaNs and
infinities collapsed into one absorbing element).  Arithmetic on finite values
is exact real arithmetic; any operation with a non-finite operand, and any
division by zero, yields the non-finite value.  This is adequate here because
no computation in the claims ever turns a non-finite intermediate back into a
finite result (no division *by* an infinity, no `pow(1, nan)` and the like
occurs in the code paths under study).

The package-global mutable variable `p` (the pi value used by the factory
functions) is modelled by explicit state passing: every top-level function of
the package takes the current `PiState`; `Apply` ignores it, exactly as the Go
method body never reads `p`.
-/

namespace Equalizer

/-- A float64 value: `some r` is finite, `none` is non-finite (NaN or ±Inf). -/
@[reducible] def FP : Type := Option ℝ

/-- Embed a finite real (a Go float64 literal or exact value) into `FP`. -/
def fnum (r : ℝ) : FP := some r

/-- The non-finite value (NaN / infinity, collapsed). -/
def nanF : FP := none

/-- Addition on float64 values: non-finite operands absorb. -/
def fadd : FP → FP → FP
  | some x, some y => some (x + y)
  | _, _ => none

/-- Subtraction on float64 values: non-finite operands absorb. -/
def fsub : FP → FP → FP
  | some x, some y => some (x - y)
  | _, _ => none

/-- Multiplication on float64 values: non-finite operands absorb. -/
def fmul : FP → FP → FP
  | some x, some y => some (x * y)
  | _, _ => none

/-- Division on float64 values: non-finite operands absorb, and division by
zero yields the non-finite value (0/0 is NaN, x/0 is ±Inf in IEEE; both are
collapsed into `none`). -/
noncomputable def fdiv : FP → FP → FP
  | some x, some y => if y = 0 then none else some (x / y)
  | _, _ => none

/-- `math.Sin`. -/
noncomputable def fsin : FP → FP
  | some x => some (Real.sin x)
  | none => none

/-- `math.Cos`. -/
noncomputable def fcos : FP → FP
  | some x => some (Real.cos x)
  | none => none

/-- `math.Sinh`. -/
noncomputable def fsinh : FP → FP
  | some x => some (Real.sinh x)
  | none => none

/-- `math.Log` (natural logarithm; only applied to 2.0 in this package). -/
noncomputable def flog : FP → FP
  | some x => some (Real.log x)
  | none => none

/-- `math.Sqrt` (only applied to the positive gain factor in this package). -/
noncomputable def fsqrt : FP → FP
  | some x => some (Real.sqrt x)
  | none => none

/-- `math.Pow` (only used as `pow(10, gain/40)` in this package), modelled by
the real power function. -/
noncomputable def fpow : FP → FP → FP
  | some x, some y => some (x ^ y)
  | _, _ => none

/-- `type FilterName int` together with the `iota` constant block
`Undefined, LowPass, ..., Peaking`. -/
inductive FilterName where
  | Undefined
  | LowPass
  | HighPass
  | AllPass
  | BandPass
  | BandReject
  | LowShelf
  | HighShelf
  | Peaking
deriving DecidableEq, BEq

/-- `const Pi = 3.1415926535897932384626433` — the package's default pi. -/
noncomputable def Pi : FP := fnum 3.1415926535897932384626433

/-- The package-global variable `var p = Pi`, modelled as explicitly passed
state: the current pi value used by factory functions. -/
def PiState : Type := FP

/-- The initial value of the global `p`. -/
noncomputable def initialPiState : PiState := Pi

/-- `func SetPi(value float64)` — sets the global pi value. -/
def SetPi (value : FP) (_s : PiState) : PiState := value

/-- `func UnsetPi()` — resets the global pi value to the default `Pi`. -/
noncomputable def UnsetPi (_s : PiState) : PiState := Pi

/-- `type Filter struct` — kind tag, four history values, six coefficients. -/
structure Filter where
  name : FilterName
  in1 : FP
  in2 : FP
  out1 : FP
  out2 : FP
  a0 : FP
  a1 : FP
  a2 : FP
  b0 : FP
  b1 : FP
  b2 : FP

/-- The Go zero value of `Filter`: `FilterName(0) = Undefined` and all ten
float64 fields `0.0`. -/
def zeroFilter : Filter :=
  { name := FilterName.Undefined
    in1 := fnum 0, in2 := fnum 0, out1 := fnum 0, out2 := fnum 0
    a0 := fnum 0, a1 := fnum 0, a2 := fnum 0
    b0 := fnum 0, b1 := fnum 0, b2 := fnum 0 }

/-- `func (f *Filter) IsZero() bool { return f.name == Undefined }`. -/
def Filter.IsZero (f : Filter) : Bool := f.name == FilterName.Undefined

/-- `func (f *Filter) Name() FilterName { return f.name }`. -/
def Filter.Name (f : Filter) : FilterName := f.name

/-- `func (f *Filter) Apply(input float64) float64` — computes the output from
the pre-call state, shifts the history, and returns the output.  The Go method
mutates `*f`; here it returns the output together with the updated filter.  It
takes the pi state and ignores it, as the Go method body never reads `p`. -/
noncomputable def Filter.Apply (_s : PiState) (f : Filter) (input : FP) :
    FP × Filter :=
  let output :=
    fsub
      (fsub
        (fadd
          (fadd (fmul (fdiv f.b0 f.a0) input)
                (fmul (fdiv f.b1 f.a0) f.in1))
          (fmul (fdiv f.b2 f.a0) f.in2))
        (fmul (fdiv f.a1 f.a0) f.out1))
      (fmul (fdiv f.a2 f.a0) f.out2)
  (output, { f with in2 := f.in1, in1 := input, out2 := f.out1, out1 := output })

/-- `func NewLowPass(sampleRate, frequency, q float64) *Filter`. -/
noncomputable def NewLowPass (s : PiState) (sampleRate frequency q : FP) :
    Filter :=
  let w0 := fdiv (fmul (fmul (fnum 2) s) frequency) sampleRate
  let alpha := fdiv (fsin w0) (fmul (fnum 2) q)
  { name := FilterName.LowPass
    in1 := fnum 0, in2 := fnum 0, out1 := fnum 0, out2 := fnum 0
    a0 := fadd (fnum 1) alpha
    a1 := fmul (fnum (-2)) (fcos w0)
    a2 := fsub (fnum 1) alpha
    b0 := fdiv (fsub (fnum 1) (fcos w0)) (fnum 2)
    b1 := fsub (fnum 1) (fcos w0)
    b2 := fdiv (fsub (fnum 1) (fcos w0)) (fnum 2) }

/-- `func NewHighPass(sampleRate, frequency, q float64) *Filter`. -/
noncomputable def NewHighPass (s : PiState) (sampleRate frequency q : FP) :
    Filter :=
  let w0 := fdiv (fmul (fmul (fnum 2) s) frequency) sampleRate
  let alpha := fdiv (fsin w0) (fmul (fnum 2) q)
  { name := FilterName.HighPass
    in1 := fnum 0, in2 := fnum 0, out1 := fnum 0, out2 := fnum 0
    a0 := fadd (fnum 1) alpha
    a1 := fmul (fnum (-2)) (fcos w0)
    a2 := fsub (fnum 1) alpha
    b0 := fdiv (fadd (fnum 1) (fcos w0)) (fnum 2)
    b1 := fmul (fnum (-1)) (fadd (fnum 1) (fcos w0))
    b2 := fdiv (fadd (fnum 1) (fcos w0)) (fnum 2) }

/-- `func NewAllPass(sampleRate, frequency, q float64) *Filter`. -/
noncomputable def NewAllPass (s : PiState) (sampleRate frequency q : FP) :
    Filter :=
  let w0 := fdiv (fmul (fmul (fnum 2) s) frequency) sampleRate
  let alpha := fdiv (fsin w0) (fmul (fnum 2) q)
  { name := FilterName.AllPass
    in1 := fnum 0, in2 := fnum 0, out1 := fnum 0, out2 := fnum 0
    a0 := fadd (fnum 1) alpha
    a1 := fmul (fnum (-2)) (fcos w0)
    a2 := fsub (fnum 1) alpha
    b0 := fsub (fnum 1) alpha
    b1 := fmul (fnum (-2)) (fcos w0)
    b2 := fadd (fnum 1) alpha }

/-- `func NewBandPass(sampleRate, frequency, width float64) *Filter`. -/
noncomputable def NewBandPass (s : PiState) (sampleRate frequency width : FP) :
    Filter :=
  let w0 := fdiv (fmul (fmul (fnum 2) s) frequency) sampleRate
  let alpha :=
    fmul (fsin w0)
      (fsinh (fdiv (fmul (fmul (fdiv (flog (fnum 2)) (fnum 2)) width) w0)
        (fsin w0)))
  { name := FilterName.BandPass
    in1 := fnum 0, in2 := fnum 0, out1 := fnum 0, out2 := fnum 0
    a0 := fadd (fnum 1) alpha
    a1 := fmul (fnum (-2)) (fcos w0)
    a2 := fsub (fnum 1) alpha
    b0 := alpha
    b1 := fnum 0
    b2 := fmul (fnum (-1)) alpha }

/-- `func NewBandReject(sampleRate, frequency, width float64) *Filter`. -/
noncomputable def NewBandReject (s : PiState) (sampleRate frequency width : FP) :
    Filter :=
  let w0 := fdiv (fmul (fmul (fnum 2) s) frequency) sampleRate
  let alpha :=
    fmul (fsin w0)
      (fsinh (fdiv (fmul (fmul (fdiv (flog (fnum 2)) (fnum 2)) width) w0)
        (fsin w0)))
  { name := FilterName.BandReject
    in1 := fnum 0, in2 := fnum 0, out1 := fnum 0, out2 := fnum 0
    a0 := fadd (fnum 1) alpha
    a1 := fmul (fnum (-2)) (fcos w0)
    a2 := fsub (fnum 1) alpha
    b0 := fnum 1
    b1 := fmul (fnum (-2)) (fcos w0)
    b2 := fnum 1 }

/-- `func NewLowShelf(sampleRate, frequency, q, gain float64) *Filter`. -/
noncomputable def NewLowShelf (s : PiState) (sampleRate frequency q gain : FP) :
    Filter :=
  let w0 := fdiv (fmul (fmul (fnum 2) s) frequency) sampleRate
  let a := fpow (fnum 10) (fdiv gain (fnum 40))
  let beta := fdiv (fsqrt a) q
  { name := FilterName.LowShelf
    in1 := fnum 0, in2 := fnum 0, out1 := fnum 0, out2 := fnum 0
    a0 := fadd (fadd (fadd a (fnum 1)) (fmul (fsub a (fnum 1)) (fcos w0)))
            (fmul beta (fsin w0))
    a1 := fmul (fnum (-2)) (fadd (fsub a (fnum 1)) (fmul (fadd a (fnum 1)) (fcos w0)))
    a2 := fsub (fadd (fadd a (fnum 1)) (fmul (fsub a (fnum 1)) (fcos w0)))
            (fmul beta (fsin w0))
    b0 := fmul a (fadd (fsub (fadd a (fnum 1)) (fmul (fsub a (fnum 1)) (fcos w0)))
            (fmul beta (fsin w0)))
    b1 := fmul (fmul (fnum 2) a) (fsub (fsub a (fnum 1)) (fmul (fadd a (fnum 1)) (fcos w0)))
    b2 := fmul a (fsub (fsub (fadd a (fnum 1)) (fmul (fsub a (fnum 1)) (fcos w0)))
            (fmul beta (fsin w0))) }

/-- `func NewHighShelf(sampleRate, frequency, q, gain float64) *Filter`. -/
noncomputable def NewHighShelf (s : PiState) (sampleRate frequency q gain : FP) :
    Filter :=
  let w0 := fdiv (fmul (fmul (fnum 2) s) frequency) sampleRate
  let a := fpow (fnum 10) (fdiv gain (fnum 40))
  let beta := fdiv (fsqrt a) q
  { name := FilterName.HighShelf
    in1 := fnum 0, in2 := fnum 0, out1 := fnum 0, out2 := fnum 0
    a0 := fadd (fsub (fadd a (fnum 1)) (fmul (fsub a (fnum 1)) (fcos w0)))
            (fmul beta (fsin w0))
    a1 := fmul (fnum 2) (fsub (fsub a (fnum 1)) (fmul (fadd a (fnum 1)) (fcos w0)))
    a2 := fsub (fsub (fadd a (fnum 1)) (fmul (fsub a (fnum 1)) (fcos w0)))
            (fmul beta (fsin w0))
    b0 := fmul a (fadd (fadd (fadd a (fnum 1)) (fmul (fsub a (fnum 1)) (fcos w0)))
            (fmul beta (fsin w0)))
    b1 := fmul (fmul (fnum (-2)) a) (fadd (fsub a (fnum 1)) (fmul (fadd a (fnum 1)) (fcos w0)))
    b2 := fmul a (fsub (fadd (fadd a (fnum 1)) (fmul (fsub a (fnum 1)) (fcos w0)))
            (fmul beta (fsin w0))) }

/-- `func NewPeaking(sampleRate, frequency, width, gain float64) *Filter`. -/
noncomputable def NewPeaking (s : PiState) (sampleRate frequency width gain : FP) :
    Filter :=
  let w0 := fdiv (fmul (fmul (fnum 2) s) frequency) sampleRate
  let alpha :=
    fmul (fsin w0)
      (fsinh (fdiv (fmul (fmul (fdiv (flog (fnum 2)) (fnum 2)) width) w0)
        (fsin w0)))
  let a := fpow (fnum 10) (fdiv gain (fnum 40))
  { name := FilterName.Peaking
    in1 := fnum 0, in2 := fnum 0, out1 := fnum 0, out2 := fnum 0
    a0 := fadd (fnum 1) (fdiv alpha a)
    a1 := fmul (fnum (-2)) (fcos w0)
    a2 := fsub (fnum 1) (fdiv alpha a)
    b0 := fadd (fnum 1) (fmul alpha a)
    b1 := fmul (fnum (-2)) (fcos w0)
    b2 := fsub (fnum 1) (fmul alpha a) }

/-- Applies the filter to a whole input sequence, one `Apply` call per sample
in order, returning the output sequence and the final filter state. -/
noncomputable def applyAll (s : PiState) (f : Filter) : List FP → List FP × Filter
  | [] => ([], f)
  | x :: xs =>
    let r := Filter.Apply s f x
    let rest := applyAll s r.2 xs
    (r.1 :: rest.1, rest.2)

/-- Transcribed from the spec: angular frequency `w0 = 2·π·frequency/sampleRate`
(with `π` the process-wide pi value). -/
noncomputable def specW0 (pi frequency sampleRate : FP) : FP :=
  fdiv (fmul (fmul (fnum 2) pi) frequency) sampleRate

/-- Transcribed from the spec: for constant-Q filters,
`alpha = sin(w0) / (2·q)`. -/
noncomputable def specAlphaQ (w0 q : FP) : FP :=
  fdiv (fsin w0) (fmul (fnum 2) q)

/-- Transcribed from the spec: for bandwidth-based filters,
`alpha = sin(w0) · sinh( (ln2/2)·width·w0/sin(w0) )`. -/
noncomputable def specAlphaBW (w0 width : FP) : FP :=
  fmul (fsin w0)
    (fsinh (fdiv (fmul (fmul (fdiv (flog (fnum 2)) (fnum 2)) width) w0)
      (fsin w0)))

/-- Transcribed from the spec: linear gain `A = 10^(gainDB/40)`. -/
noncomputable def specGainA (gain : FP) : FP :=
  fpow (fnum 10) (fdiv gain (fnum 40))

/-- The history of a filter is zeroed: `in1 = in2 = out1 = out2 = 0`, as in a
freshly constructed instance. -/
def freshHistory (f : Filter) : Prop :=
  f.in1 = fnum 0 ∧ f.in2 = fnum 0 ∧ f.out1 = fnum 0 ∧ f.out2 = fnum 0

/-- A concrete configured filter with zeroed history and simple finite
coefficients, used as a concrete instance in witness statements. -/
def freshSample : Filter :=
  { name := FilterName.Undefined
    in1 := fnum 0, in2 := fnum 0, out1 := fnum 0, out2 := fnum 0
    a0 := fnum 1, a1 := fnum 0, a2 := fnum 0
    b0 := fnum 1, b1 := fnum 0, b2 := fnum 0 }

/-- A concrete filter whose `in1` history value is non-finite (NaN), used as a
concrete instance in witness statements. -/
def poisonedSample : Filter :=
  { name := FilterName.Undefined
    in1 := nanF, in2 := fnum 0, out1 := fnum 0, out2 := fnum 0
    a0 := fnum 1, a1 := fnum 0, a2 := fnum 0
    b0 := fnum 1, b1 := fnum 0, b2 := fnum 0 }

theorem fadd_nanl (y : FP) : fadd nanF y = nanF := by cases y <;> rfl

theorem fadd_nanr (x : FP) : fadd x nanF = nanF := by cases x <;> rfl

theorem fsub_nanl (y : FP) : fsub nanF y = nanF := by cases y <;> rfl

theorem fsub_nanr (x : FP) : fsub x nanF = nanF := by cases x <;> rfl

theorem fmul_nanl (y : FP) : fmul nanF y = nanF := by cases y <;> rfl

theorem fmul_nanr (x : FP) : fmul x nanF = nanF := by cases x <;> rfl

/-- If any history value of `f` is non-finite, the `Apply` output is
non-finite: the corresponding product term is non-finite and absorbs the whole
sum. -/
theorem apply_output_nan (s : PiState) (f : Filter) (x : FP)
    (h : f.in1 = nanF ∨ f.in2 = nanF ∨ f.out1 = nanF ∨ f.out2 = nanF) :
    (Filter.Apply s f x).1 = nanF := by
  rcases h with h | h | h | h <;>
    simp [Filter.Apply, h, fmul_nanr, fadd_nanl, fadd_nanr, fsub_nanl, fsub_nanr]

/-- Once a filter's history holds a non-finite value, every output of any
further input sequence is non-finite: each `Apply` writes its (non-finite)
output into `out1`, so the poisoned-history property is preserved. -/
theorem applyAll_poisoned (s : PiState) :
    ∀ (xs : List FP) (f : Filter),
      (f.in1 = nanF ∨ f.in2 = nanF ∨ f.out1 = nanF ∨ f.out2 = nanF) →
      ∀ y ∈ (applyAll s f xs).1, y = nanF := by
  intro xs
  induction xs with
  | nil => intro f _ y hy; simp [applyAll] at hy
  | cons x xs ih =>
    intro f h y hy
    have hout : (Filter.Apply s f x).1 = nanF := apply_output_nan s f x h
    have hpois : (Filter.Apply s f x).2.out1 = nanF := hout
    simp only [applyAll, List.mem_cons] at hy
    rcases hy with rfl | hy
    · exact hout
    · exact ih (Filter.Apply s f x).2 (Or.inr (Or.inr (Or.inl hpois))) y hy

theorem applyAll_cons_eq (s : PiState) (f : Filter) (x : FP) (xs : List FP) :
    applyAll s f (x :: xs) =
      ((Filter.Apply s f x).1 :: (applyAll s (Filter.Apply s f x).2 xs).1,
        (applyAll s (Filter.Apply s f x).2 xs).2) := rfl

theorem getLast?_cons_of_ne_nil {α : Type _} (a : α) (l : List α) (h : l ≠ []) :
    (a :: l).getLast? = l.getLast? := by
  cases l with
  | nil => exact absurd rfl h
  | cons b t => exact List.getLast?_cons_cons

/-- State tracking for `applyAll`: after a nonempty input sequence, `in1` is
the last input, `out1` the last output, `in2` the last element of the old
`in1` followed by all but the last input, and `out2` symmetrically for
outputs; moreover there is exactly one output per input. -/
theorem applyAll_state_track (s : PiState) :
    ∀ (xs : List FP) (f : Filter), xs ≠ [] →
      (applyAll s f xs).1.length = xs.length
      ∧ xs.getLast? = some ((applyAll s f xs).2.in1)
      ∧ (applyAll s f xs).1.getLast? = some ((applyAll s f xs).2.out1)
      ∧ (f.in1 :: xs.dropLast).getLast? = some ((applyAll s f xs).2.in2)
      ∧ (f.out1 :: (applyAll s f xs).1.dropLast).getLast? =
          some ((applyAll s f xs).2.out2) := by
  intro xs
  induction xs with
  | nil => intro f h; exact absurd rfl h
  | cons x xs ih =>
    intro f _
    cases xs with
    | nil => exact ⟨rfl, rfl, rfl, rfl, rfl⟩
    | cons x2 xs2 =>
      obtain ⟨ihlen, ih1, ih2, ih3, ih4⟩ :=
        ih (Filter.Apply s f x).2 (List.cons_ne_nil _ _)
      rw [applyAll_cons_eq]
      refine ⟨?_, ?_, ?_, ?_, ?_⟩
      · simp [ihlen]
      · exact List.mem_getLast?_cons ih1
      · exact List.mem_getLast?_cons ih2
      · rw [List.dropLast_cons₂, List.getLast?_cons_cons]
        exact ih3
      · rw [applyAll_cons_eq] at ih4 ⊢
        rw [List.dropLast_cons₂, List.getLast?_cons_cons]
        exact ih4

/-- C1: For every Filter state (coefficients a0..b2 and history in1, in2,
out1, out2) and every input sample, `Apply` returns
`output = (b0/a0)·input + (b1/a0)·in1 + (b2/a0)·in2 − (a1/a0)·out1 − (a2/a0)·out2`
computed from the pre-call history, and then updates the state to
`in2 = old in1`, `in1 = input`, `out2 = old out1`, `out1 = output`, leaving all
six coefficients and the kind tag unchanged. -/
theorem apply_formula_and_shift (s : PiState) (f : Filter) (input : FP) :
    (Filter.Apply s f input).1 =
      fsub (fsub (fadd (fadd (fmul (fdiv f.b0 f.a0) input)
        (fmul (fdiv f.b1 f.a0) f.in1)) (fmul (fdiv f.b2 f.a0) f.in2))
        (fmul (fdiv f.a1 f.a0) f.out1)) (fmul (fdiv f.a2 f.a0) f.out2)
    ∧ (Filter.Apply s f input).2.in2 = f.in1
    ∧ (Filter.Apply s f input).2.in1 = input
    ∧ (Filter.Apply s f input).2.out2 = f.out1
    ∧ (Filter.Apply s f input).2.out1 = (Filter.Apply s f input).1
    ∧ (Filter.Apply s f input).2.a0 = f.a0
    ∧ (Filter.Apply s f input).2.a1 = f.a1
    ∧ (Filter.Apply s f input).2.a2 = f.a2
    ∧ (Filter.Apply s f input).2.b0 = f.b0
    ∧ (Filter.Apply s f input).2.b1 = f.b1
    ∧ (Filter.Apply s f input).2.b2 = f.b2
    ∧ (Filter.Apply s f input).2.name = f.name :=
  ⟨rfl, rfl, rfl, rfl, rfl, rfl, rfl, rfl, rfl, rfl, rfl, rfl⟩

/-- C2: For every sampleRate, frequency and q (and every current pi value),
`NewLowPass` returns a Filter whose coefficients equal the closed-form
formulas with `w0 = 2·π·frequency/sampleRate` and `alpha = sin(w0)/(2·q)`:
`a0 = 1+alpha`, `a1 = −2·cos(w0)`, `a2 = 1−alpha`, `b0 = (1−cos w0)/2`,
`b1 = 1−cos w0`, `b2 = (1−cos w0)/2`, stored verbatim (not pre-divided
by a0). -/
theorem newLowPass_matches_spec (s : PiState) (sampleRate frequency q : FP) :
    (NewLowPass s sampleRate frequency q).a0 =
      fadd (fnum 1) (specAlphaQ (specW0 s frequency sampleRate) q)
    ∧ (NewLowPass s sampleRate frequency q).a1 =
      fmul (fnum (-2)) (fcos (specW0 s frequency sampleRate))
    ∧ (NewLowPass s sampleRate frequency q).a2 =
      fsub (fnum 1) (specAlphaQ (specW0 s frequency sampleRate) q)
    ∧ (NewLowPass s sampleRate frequency q).b0 =
      fdiv (fsub (fnum 1) (fcos (specW0 s frequency sampleRate))) (fnum 2)
    ∧ (NewLowPass s sampleRate frequency q).b1 =
      fsub (fnum 1) (fcos (specW0 s frequency sampleRate))
    ∧ (NewLowPass s sampleRate frequency q).b2 =
      fdiv (fsub (fnum 1) (fcos (specW0 s frequency sampleRate))) (fnum 2) :=
  ⟨rfl, rfl, rfl, rfl, rfl, rfl⟩

/-- C3: For every sampleRate, frequency, width and gain (and every current pi
value), `NewPeaking` returns a Filter whose coefficients equal the closed-form
formulas with `w0 = 2·π·frequency/sampleRate`,
`alpha = sin(w0)·sinh((ln2/2)·width·w0/sin(w0))` and `A = 10^(gain/40)`:
`a0 = 1+alpha/A`, `a1 = −2·cos(w0)`, `a2 = 1−alpha/A`, `b0 = 1+alpha·A`,
`b1 = −2·cos(w0)`, `b2 = 1−alpha·A`. -/
theorem newPeaking_matches_spec (s : PiState) (sampleRate frequency width gain : FP) :
    (NewPeaking s sampleRate frequency width gain).a0 =
      fadd (fnum 1)
        (fdiv (specAlphaBW (specW0 s frequency sampleRate) width) (specGainA gain))
    ∧ (NewPeaking s sampleRate frequency width gain).a1 =
      fmul (fnum (-2)) (fcos (specW0 s frequency sampleRate))
    ∧ (NewPeaking s sampleRate frequency width gain).a2 =
      fsub (fnum 1)
        (fdiv (specAlphaBW (specW0 s frequency sampleRate) width) (specGainA gain))
    ∧ (NewPeaking s sampleRate frequency width gain).b0 =
      fadd (fnum 1)
        (fmul (specAlphaBW (specW0 s frequency sampleRate) width) (specGainA gain))
    ∧ (NewPeaking s sampleRate frequency width gain).b1 =
      fmul (fnum (-2)) (fcos (specW0 s frequency sampleRate))
    ∧ (NewPeaking s sampleRate frequency width gain).b2 =
      fsub (fnum 1)
        (fmul (specAlphaBW (specW0 s frequency sampleRate) width) (specGainA gain)) :=
  ⟨rfl, rfl, rfl, rfl, rfl, rfl⟩

/-- C5: For every sampleRate, frequency and q (and every current pi value),
the Filter returned by `NewAllPass` satisfies `b0 = a2`, `b1 = a1` and
`b2 = a0` exactly (the stored coefficient expressions share the same
`1+alpha`, `1−alpha` and `−2·cos(w0)` terms, so the equalities are
definitional, not merely approximate). -/
theorem newAllPass_self_inverse (s : PiState) (sampleRate frequency q : FP) :
    (NewAllPass s sampleRate frequency q).b0 = (NewAllPass s sampleRate frequency q).a2
    ∧ (NewAllPass s sampleRate frequency q).b1 = (NewAllPass s sampleRate frequency q).a1
    ∧ (NewAllPass s sampleRate frequency q).b2 = (NewAllPass s sampleRate frequency q).a0 :=
  ⟨rfl, rfl, rfl⟩

/-- C6: `SetPi v` changes the pi value read by every subsequently called
factory function (their `w0` and hence their coefficients are computed from
`v` — shown for `NewLowPass`, whose post-`SetPi` coefficients equal the spec
formulas over `specW0 v`), but does not change any already-constructed Filter
instance (a `Filter` is a plain value that the pi state cannot reach) and does
not change the behaviour of `Apply` on such an instance (`Apply` never reads
the pi state); `UnsetPi` restores the default pi literal `Pi` for subsequent
constructions. -/
theorem setPi_frame (s v : PiState) (g : Filter) (x sampleRate frequency q width gain : FP) :
    SetPi v s = v
    ∧ UnsetPi (SetPi v s) = Pi
    ∧ Filter.Apply (SetPi v s) g x = Filter.Apply s g x
    ∧ NewLowPass (SetPi v s) sampleRate frequency q =
        NewLowPass v sampleRate frequency q
    ∧ NewHighPass (SetPi v s) sampleRate frequency q =
        NewHighPass v sampleRate frequency q
    ∧ NewAllPass (SetPi v s) sampleRate frequency q =
        NewAllPass v sampleRate frequency q
    ∧ NewBandPass (SetPi v s) sampleRate frequency width =
        NewBandPass v sampleRate frequency width
    ∧ NewBandReject (SetPi v s) sampleRate frequency width =
        NewBandReject v sampleRate frequency width
    ∧ NewLowShelf (SetPi v s) sampleRate frequency q gain =
        NewLowShelf v sampleRate frequency q gain
    ∧ NewHighShelf (SetPi v s) sampleRate frequency q gain =
        NewHighShelf v sampleRate frequency q gain
    ∧ NewPeaking (SetPi v s) sampleRate frequency width gain =
        NewPeaking v sampleRate frequency width gain
    ∧ (NewLowPass (SetPi v s) sampleRate frequency q).a1 =
        fmul (fnum (-2)) (fcos (specW0 v frequency sampleRate))
    ∧ (NewLowPass (SetPi v s) sampleRate frequency q).a0 =
        fadd (fnum 1) (specAlphaQ (specW0 v frequency sampleRate) q) :=
  ⟨rfl, rfl, rfl, rfl, rfl, rfl, rfl, rfl, rfl, rfl, rfl, rfl, rfl⟩

/-- C8: A zero-value (never-factory-constructed) Filter reports
`Name() = Undefined` and `IsZero() = true`; every Filter returned by any of
the eight factory functions reports the kind matching that factory and
`IsZero() = false`, so no factory ever produces the Undefined kind.  Both
accessors are read-only: they are pure functions of the filter value and
return no modified filter. -/
theorem kind_tagging (s : PiState) (sampleRate frequency q width gain : FP) :
    zeroFilter.IsZero = true
    ∧ zeroFilter.Name = FilterName.Undefined
    ∧ (NewLowPass s sampleRate frequency q).Name = FilterName.LowPass
    ∧ (NewLowPass s sampleRate frequency q).IsZero = false
    ∧ (NewHighPass s sampleRate frequency q).Name = FilterName.HighPass
    ∧ (NewHighPass s sampleRate frequency q).IsZero = false
    ∧ (NewAllPass s sampleRate frequency q).Name = FilterName.AllPass
    ∧ (NewAllPass s sampleRate frequency q).IsZero = false
    ∧ (NewBandPass s sampleRate frequency width).Name = FilterName.BandPass
    ∧ (NewBandPass s sampleRate frequency width).IsZero = false
    ∧ (NewBandReject s sampleRate frequency width).Name = FilterName.BandReject
    ∧ (NewBandReject s sampleRate frequency width).IsZero = false
    ∧ (NewLowShelf s sampleRate frequency q gain).Name = FilterName.LowShelf
    ∧ (NewLowShelf s sampleRate frequency q gain).IsZero = false
    ∧ (NewHighShelf s sampleRate frequency q gain).Name = FilterName.HighShelf
    ∧ (NewHighShelf s sampleRate frequency q gain).IsZero = false
    ∧ (NewPeaking s sampleRate frequency width gain).Name = FilterName.Peaking
    ∧ (NewPeaking s sampleRate frequency width gain).IsZero = false :=
  ⟨rfl, rfl, rfl, rfl, rfl, rfl, rfl, rfl, rfl, rfl, rfl, rfl, rfl, rfl, rfl,
    rfl, rfl, rfl⟩

/-- C10: For every factory function, two calls with identical arguments (and
the same process-wide pi value) yield identical Filter values — bit-for-bit
identical coefficients and identical kind, since construction is a pure
function of its arguments and the pi state — and each freshly constructed
instance has its history zeroed: `in1 = in2 = out1 = out2 = 0`. -/
theorem construction_deterministic_and_fresh (s : PiState)
    (sampleRate frequency q width gain : FP) :
    (NewLowPass s sampleRate frequency q = NewLowPass s sampleRate frequency q
      ∧ freshHistory (NewLowPass s sampleRate frequency q))
    ∧ (NewHighPass s sampleRate frequency q = NewHighPass s sampleRate frequency q
      ∧ freshHistory (NewHighPass s sampleRate frequency q))
    ∧ (NewAllPass s sampleRate frequency q = NewAllPass s sampleRate frequency q
      ∧ freshHistory (NewAllPass s sampleRate frequency q))
    ∧ (NewBandPass s sampleRate frequency width = NewBandPass s sampleRate frequency width
      ∧ freshHistory (NewBandPass s sampleRate frequency width))
    ∧ (NewBandReject s sampleRate frequency width = NewBandReject s sampleRate frequency width
      ∧ freshHistory (NewBandReject s sampleRate frequency width))
    ∧ (NewLowShelf s sampleRate frequency q gain = NewLowShelf s sampleRate frequency q gain
      ∧ freshHistory (NewLowShelf s sampleRate frequency q gain))
    ∧ (NewHighShelf s sampleRate frequency q gain = NewHighShelf s sampleRate frequency q gain
      ∧ freshHistory (NewHighShelf s sampleRate frequency q gain))
    ∧ (NewPeaking s sampleRate frequency width gain = NewPeaking s sampleRate frequency width gain
      ∧ freshHistory (NewPeaking s sampleRate frequency width gain)) :=
  ⟨⟨rfl, rfl, rfl, rfl, rfl⟩, ⟨rfl, rfl, rfl, rfl, rfl⟩,
    ⟨rfl, rfl, rfl, rfl, rfl⟩, ⟨rfl, rfl, rfl, rfl, rfl⟩,
    ⟨rfl, rfl, rfl, rfl, rfl⟩, ⟨rfl, rfl, rfl, rfl, rfl⟩,
    ⟨rfl, rfl, rfl, rfl, rfl⟩, ⟨rfl, rfl, rfl, rfl, rfl⟩⟩

/-- C7: If any of a Filter's history values `in1`, `in2`, `out1`, `out2` is
NaN before an `Apply` call (the coefficients held fixed), then the output of
that call is NaN, at least one history value remains NaN after the call
(`out1` receives the NaN output), and hence every subsequent `Apply` output on
that instance is NaN — NaN poisoning is permanent for the instance. -/
theorem nan_poisoning (s : PiState) (f : Filter) (x : FP)
    (h : f.in1 = nanF ∨ f.in2 = nanF ∨ f.out1 = nanF ∨ f.out2 = nanF) :
    (Filter.Apply s f x).1 = nanF
    ∧ ((Filter.Apply s f x).2.in1 = nanF ∨ (Filter.Apply s f x).2.in2 = nanF
      ∨ (Filter.Apply s f x).2.out1 = nanF ∨ (Filter.Apply s f x).2.out2 = nanF)
    ∧ ∀ xs, ∀ y ∈ (applyAll s (Filter.Apply s f x).2 xs).1, y = nanF := by
  have hout : (Filter.Apply s f x).1 = nanF := apply_output_nan s f x h
  have hpois : (Filter.Apply s f x).2.out1 = nanF := hout
  exact ⟨hout, Or.inr (Or.inr (Or.inl hpois)),
    fun xs => applyAll_poisoned s xs _ (Or.inr (Or.inr (Or.inl hpois)))⟩

/-- Witness for C7 at a concrete poisoned filter (`in1 = NaN`) and input 0. -/
theorem nan_poisoning_witness :
    poisonedSample.in1 = nanF
    ∧ ((Filter.Apply Pi poisonedSample (fnum 0)).1 = nanF
      ∧ ((Filter.Apply Pi poisonedSample (fnum 0)).2.in1 = nanF
        ∨ (Filter.Apply Pi poisonedSample (fnum 0)).2.in2 = nanF
        ∨ (Filter.Apply Pi poisonedSample (fnum 0)).2.out1 = nanF
        ∨ (Filter.Apply Pi poisonedSample (fnum 0)).2.out2 = nanF)
      ∧ ∀ xs, ∀ y ∈ (applyAll Pi (Filter.Apply Pi poisonedSample (fnum 0)).2 xs).1,
          y = nanF) :=
  ⟨rfl, nan_poisoning Pi poisonedSample (fnum 0) (Or.inl rfl)⟩

/-- C9: Constructing a BandPass filter with `frequency = 0` (and any positive
sampleRate and width, and any finite pi value) yields non-finite coefficients:
`w0 = 0` makes `sin(w0) = 0`, the division `w0/sin(w0)` is 0/0, and the
resulting non-finite alpha propagates into `a0`, `a2`, `b0` and `b2`. -/
theorem bandpass_zero_frequency_nonfinite (pv sr w : ℝ)
    (hsr : 0 < sr) (hw : 0 < w) :
    (NewBandPass (fnum pv) (fnum sr) (fnum 0) (fnum w)).a0 = nanF
    ∧ (NewBandPass (fnum pv) (fnum sr) (fnum 0) (fnum w)).a2 = nanF
    ∧ (NewBandPass (fnum pv) (fnum sr) (fnum 0) (fnum w)).b0 = nanF
    ∧ (NewBandPass (fnum pv) (fnum sr) (fnum 0) (fnum w)).b2 = nanF := by
  have hsr' : sr ≠ 0 := ne_of_gt hsr
  have _hw' : w ≠ 0 := ne_of_gt hw
  refine ⟨?_, ?_, ?_, ?_⟩ <;>
    simp [NewBandPass, fdiv, fmul, fsin, fsinh, fadd, fsub, flog, fnum, nanF, hsr']

/-- Witness for C9 at sampleRate 44100, width 1 and the default pi value. -/
theorem bandpass_zero_frequency_nonfinite_witness :
    (0 : ℝ) < 44100 ∧ (0 : ℝ) < 1
    ∧ ((NewBandPass (fnum 3.1415926535897932384626433) (fnum 44100) (fnum 0) (fnum 1)).a0 = nanF
      ∧ (NewBandPass (fnum 3.1415926535897932384626433) (fnum 44100) (fnum 0) (fnum 1)).a2 = nanF
      ∧ (NewBandPass (fnum 3.1415926535897932384626433) (fnum 44100) (fnum 0) (fnum 1)).b0 = nanF
      ∧ (NewBandPass (fnum 3.1415926535897932384626433) (fnum 44100) (fnum 0) (fnum 1)).b2 = nanF) :=
  ⟨by norm_num, by norm_num,
    bandpass_zero_frequency_nonfinite 3.1415926535897932384626433 44100 1
      (by norm_num) (by norm_num)⟩

/-- C4: For every freshly constructed Filter (zeroed history, as every factory
produces) and every finite sequence of `Apply` calls with inputs x1..xn
(n ≥ 2) producing outputs y1..yn, after the n-th call the state satisfies
`in1 = xn`, `in2 = x(n-1)`, `out1 = yn`, `out2 = y(n-1)` exactly; after
exactly one call, `in1 = x1` and `out1 = y1` with `in2 = out2 = 0`.  The
underlying invariant is preserved by every `Apply` call
(`applyAll_state_track` is proved by induction over the call sequence). -/
theorem history_reflects_last_two (s : PiState) (f : Filter) (xs : List FP)
    (hf : freshHistory f) (hlen : 2 ≤ xs.length) :
    (applyAll s f xs).1.length = xs.length
    ∧ xs.getLast? = some ((applyAll s f xs).2.in1)
    ∧ xs.dropLast.getLast? = some ((applyAll s f xs).2.in2)
    ∧ (applyAll s f xs).1.getLast? = some ((applyAll s f xs).2.out1)
    ∧ (applyAll s f xs).1.dropLast.getLast? = some ((applyAll s f xs).2.out2)
    ∧ ∀ x1, (Filter.Apply s f x1).2.in1 = x1
        ∧ (Filter.Apply s f x1).2.in2 = fnum 0
        ∧ (Filter.Apply s f x1).2.out1 = (Filter.Apply s f x1).1
        ∧ (Filter.Apply s f x1).2.out2 = fnum 0 := by
  obtain ⟨h1, _h2, h3, _h4⟩ := hf
  have hne : xs ≠ [] := by rintro rfl; simp at hlen
  obtain ⟨len, last1, lastout, in2t, out2t⟩ := applyAll_state_track s xs f hne
  have hdl : xs.dropLast ≠ [] := by
    intro h
    have hl := List.length_dropLast xs
    rw [h] at hl
    simp at hl
    omega
  have hodl : (applyAll s f xs).1.dropLast ≠ [] := by
    intro h
    have hl := List.length_dropLast (applyAll s f xs).1
    rw [h] at hl
    simp at hl
    omega
  refine ⟨len, last1, ?_, lastout, ?_, ?_⟩
  · exact (getLast?_cons_of_ne_nil f.in1 _ hdl).symm.trans in2t
  · exact (getLast?_cons_of_ne_nil f.out1 _ hodl).symm.trans out2t
  · exact fun x1 => ⟨rfl, h1, rfl, h3⟩

/-- Witness for C4 at a concrete zero-history filter and the two-sample input
sequence [1, 2]. -/
theorem history_reflects_last_two_witness :
    freshHistory freshSample
    ∧ 2 ≤ ([fnum 1, fnum 2] : List FP).length
    ∧ ((applyAll Pi freshSample [fnum 1, fnum 2]).1.length =
        ([fnum 1, fnum 2] : List FP).length
      ∧ ([fnum 1, fnum 2] : List FP).getLast? =
        some ((applyAll Pi freshSample [fnum 1, fnum 2]).2.in1)
      ∧ ([fnum 1, fnum 2] : List FP).dropLast.getLast? =
        some ((applyAll Pi freshSample [fnum 1, fnum 2]).2.in2)
      ∧ (applyAll Pi freshSample [fnum 1, fnum 2]).1.getLast? =
        some ((applyAll Pi freshSample [fnum 1, fnum 2]).2.out1)
      ∧ (applyAll Pi freshSample [fnum 1, fnum 2]).1.dropLast.getLast? =
        some ((applyAll Pi freshSample [fnum 1, fnum 2]).2.out2)
      ∧ ∀ x1, (Filter.Apply Pi freshSample x1).2.in1 = x1
          ∧ (Filter.Apply Pi freshSample x1).2.in2 = fnum 0
          ∧ (Filter.Apply Pi freshSample x1).2.out1 =
            (Filter.Apply Pi freshSample x1).1
          ∧ (Filter.Apply Pi freshSample x1).2.out2 = fnum 0) :=
  ⟨⟨rfl, rfl, rfl, rfl⟩, by decide,
    history_reflects_last_two Pi freshSample [fnum 1, fnum 2]
      ⟨rfl, rfl, rfl, rfl⟩ (by decide)⟩

end Equalizer
